import Mathlib

/- Verification of the centipede / reptile cursor creature simulation.

   Shallow embedding of the simulation core of `src/unnamed/part_001`
   (the `ReptileCursor` component with the legged gait state machine).
   JavaScript floating-point numbers are modelled as real numbers;
   `Math.hypot`, `Math.atan2`, `Math.sin`, `Math.cos`, `Math.acos` are
   modelled by the corresponding real functions (`atan2` via
   `Complex.arg`, which agrees with JavaScript's `Math.atan2` on all
   inputs, including `atan2 0 0 = 0`).  JavaScript's `%` truncates the
   quotient toward zero; `jsMod` models that. -/

namespace Centipede

noncomputable section

@[ext]
structure Point where
  x : ℝ
  y : ℝ

structure Segment where
  x : ℝ
  y : ℝ
  angle : ℝ
  length : ℝ
  width : ℝ

structure LegState where
  id : ℕ
  pairIndex : ℕ
  side : ℝ
  cyclePhase : ℝ
  isPowerStroke : Bool
  footPlantedWorldPos : Option Point
  recoverySwingProgress : ℝ
  segmentAttachIndex : ℕ

structure SimState where
  segments : List Segment
  headSpeed : ℝ
  undulationTime : ℝ
  currentUndulationMagnitudeFactor : ℝ
  globalLegCycleTime : ℝ
  legStates : List LegState

/-- SEGMENT_COUNT constant of the source. -/
def SEGMENT_COUNT : ℕ := 45

def BASE_SEGMENT_LENGTH : ℝ := 9

def LEG_PAIRS : ℕ := 7

def LEG_START_SEGMENT_INDEX : ℕ := 8

def LEG_SEGMENT_GAP : ℕ := 3

def THIGH_LENGTH : ℝ := 18

def CALF_LENGTH : ℝ := 16

def LEG_CYCLE_SPEED_SCALAR : ℝ := 0.08

/-- POWER_STROKE_RATIO constant of the source (the stance ratio 0.65). -/
def POWER_STROKE_CUT : ℝ := 0.65

def METACHRONAL_WAVE_FACTOR : ℝ := 6.0

def LEG_PLANT_FORWARD_OFFSET : ℝ := 10

def LEG_PLANT_SIDE_OFFSET : ℝ := 15

def UNDULATION_AMPLITUDE : ℝ := 3.5

def UNDULATION_FREQUENCY : ℝ := 0.5

def UNDULATION_WAVE_SPEED : ℝ := 0.09

def UNDULATION_SETTLE_SPEED : ℝ := 0.15

/-- Math.hypot. -/
def hypot (a b : ℝ) : ℝ := Real.sqrt (a * a + b * b)

/-- Math.atan2 y x, via the complex argument of x + y·i. -/
def atan2 (y x : ℝ) : ℝ := Complex.arg ⟨x, y⟩

/-- JavaScript number truncation toward zero (used by the `%` operator). -/
def jsTrunc (x : ℝ) : ℤ := if 0 ≤ x then ⌊x⌋ else -⌊-x⌋

/-- JavaScript's remainder operator `a % b` (for finite b ≠ 0). -/
def jsMod (a b : ℝ) : ℝ := a - b * (jsTrunc (a / b) : ℝ)

/-- Math.min(1, Math.max(-1, x)), the clamp used before Math.acos in drawLeg. -/
def clamp11 (x : ℝ) : ℝ := min 1 (max (-1) x)

/-- The activity-governor update of mainLoop: target magnitude from the head
    speed, first-order smoothing with UNDULATION_SETTLE_SPEED, then snapping
    to exactly 0 or 1 when within 0.01 of the bound. -/
def updateActivity (mag speed : ℝ) : ℝ :=
  let targetUndulationMagnitude : ℝ := if speed > 0.5 then 1.0 else 0.0
  let m1 := mag + (targetUndulationMagnitude - mag) * UNDULATION_SETTLE_SPEED
  if |m1| < 0.01 then 0 else if |m1 - 1.0| < 0.01 then 1.0 else m1

/-- Metachronal phase offset of a leg, from its attach segment index. -/
def phaseOffsetOf (segmentAttachIndex : ℕ) : ℝ :=
  ((segmentAttachIndex : ℝ) / (SEGMENT_COUNT : ℝ)) * METACHRONAL_WAVE_FACTOR

/-- A leg's cycle phase: (globalLegCycleTime + phaseOffset) % 1.0. -/
def cyclePhaseOf (g phaseOffset : ℝ) : ℝ := jsMod (g + phaseOffset) 1.0

/-- One iteration of the spine-follow loop body of mainLoop: segment `cur`
    (at loop index `i`) follows `prev` at distance `cur.length`, plus the
    undulation lateral offset, then recomputes its angle. -/
def followStep (prev cur : Segment) (i : ℕ) (undT mag : ℝ) : Segment :=
  let followAngle := atan2 (prev.y - cur.y) (prev.x - cur.x)
  let targetX := prev.x - Real.cos followAngle * cur.length
  let targetY := prev.y - Real.sin followAngle * cur.length
  let waveProgress :=
    ((i : ℝ) / (SEGMENT_COUNT : ℝ)) * Real.pi * 2 * UNDULATION_FREQUENCY - undT
  let undulationTaper := Real.sin (Real.pi * ((i : ℝ) / ((SEGMENT_COUNT : ℝ) - 1)))
  let undulationOffset := UNDULATION_AMPLITUDE * Real.sin waveProgress * undulationTaper * mag
  let perpAngle := prev.angle + Real.pi / 2
  let newX := targetX + undulationOffset * Real.cos perpAngle
  let newY := targetY + undulationOffset * Real.sin perpAngle
  { cur with x := newX, y := newY, angle := atan2 (prev.y - newY) (prev.x - newX) }

/-- The spine-follow loop of mainLoop (`for i = 1; i < SEGMENT_COUNT; i++`),
    written structurally: each segment follows the already-updated previous
    segment; `i` is the loop index of the first element of `rest`. -/
def cascade (prev : Segment) (rest : List Segment) (i : ℕ) (undT mag : ℝ) :
    List Segment :=
  match rest with
  | [] => []
  | cur :: tail =>
    let cur' := followStep prev cur i undT mag
    cur' :: cascade cur' tail (i + 1) undT mag

/-- The per-leg update of mainLoop: recompute the cycle phase and the
    power-stroke flag; on a swing→stance edge compute a fresh planted foot
    position; during stance keep it; during swing clear it and track the
    recovery progress.  A leg whose attach segment index is out of bounds is
    left untouched (the loop body does `continue`). -/
def updateLeg (segments : List Segment) (g speed : ℝ) (leg : LegState) : LegState :=
  match segments[leg.segmentAttachIndex]? with
  | none => leg
  | some parentSegment =>
    let c := cyclePhaseOf g (phaseOffsetOf leg.segmentAttachIndex)
    if c < POWER_STROKE_CUT then
      if leg.isPowerStroke then
        { leg with cyclePhase := c, isPowerStroke := true, recoverySwingProgress := 0 }
      else
        let plantAngle := parentSegment.angle + Real.pi / 2 * leg.side * 0.6
        let plantDistForward := LEG_PLANT_FORWARD_OFFSET * (0.5 + speed * 0.05)
        { leg with
          cyclePhase := c
          isPowerStroke := true
          recoverySwingProgress := 0
          footPlantedWorldPos := some
            ⟨parentSegment.x + Real.cos parentSegment.angle * plantDistForward +
                Real.cos plantAngle * LEG_PLANT_SIDE_OFFSET,
              parentSegment.y + Real.sin parentSegment.angle * plantDistForward +
                Real.sin plantAngle * LEG_PLANT_SIDE_OFFSET⟩ }
    else
      { leg with
        cyclePhase := c
        isPowerStroke := false
        footPlantedWorldPos := none
        recoverySwingProgress := (c - POWER_STROKE_CUT) / (1.0 - POWER_STROKE_CUT) }

/-- One tick of the mainLoop logic section: move the head to the driver
    position, measure head speed, update the head angle (only above the 0.1
    epsilon), run the activity governor, advance the two clocks (only while
    the activity factor exceeds 0.05), cascade the spine, then update every
    leg against the updated segments.  An empty segment list makes the whole
    tick an early return, as in the source. -/
def mainLoopTick (s : SimState) (target : Point) : SimState :=
  match s.segments with
  | [] => s
  | headSegment :: rest =>
    let dxHeadMove := target.x - headSegment.x
    let dyHeadMove := target.y - headSegment.y
    let speed := hypot dxHeadMove dyHeadMove
    let newAngle := if speed > 0.1 then atan2 dyHeadMove dxHeadMove else headSegment.angle
    let newHead := { headSegment with x := target.x, y := target.y, angle := newAngle }
    let mag := updateActivity s.currentUndulationMagnitudeFactor speed
    let undT :=
      if mag > 0.05 then s.undulationTime + UNDULATION_WAVE_SPEED else s.undulationTime
    let g :=
      if mag > 0.05 then
        s.globalLegCycleTime + (speed / 15 + 0.01) * LEG_CYCLE_SPEED_SCALAR * mag
      else s.globalLegCycleTime
    let newSegments := newHead :: cascade newHead rest 1 undT mag
    { segments := newSegments
      headSpeed := speed
      undulationTime := undT
      currentUndulationMagnitudeFactor := mag
      globalLegCycleTime := g
      legStates := s.legStates.map (updateLeg newSegments g speed) }

/-- mainLoopTick with the driver point fixed, for iterating ticks with a
    stationary driver. -/
def tickAt (p : Point) (s : SimState) : SimState := mainLoopTick s p

/-- The leg-creation loop of initializeSimulation: LEG_PAIRS pairs, each pair
    sharing one attach segment index (spaced by LEG_SEGMENT_GAP from
    LEG_START_SEGMENT_INDEX), a side-1 leg pushed before its side-(-1)
    partner; the loop breaks when the attach index leaves the chain.  `fuel`
    is the number of loop iterations remaining (LEG_PAIRS - i). -/
def buildLegs : ℕ → ℕ → List LegState
  | 0, _ => []
  | fuel + 1, i =>
    let segmentAttachIndex := LEG_START_SEGMENT_INDEX + i * LEG_SEGMENT_GAP
    if SEGMENT_COUNT ≤ segmentAttachIndex then []
    else
      { id := 2 * i, pairIndex := i, side := 1, cyclePhase := 0, isPowerStroke := false,
        footPlantedWorldPos := none, recoverySwingProgress := 0,
        segmentAttachIndex := segmentAttachIndex } ::
      { id := 2 * i + 1, pairIndex := i, side := -1, cyclePhase := 0, isPowerStroke := false,
        footPlantedWorldPos := none, recoverySwingProgress := 0,
        segmentAttachIndex := segmentAttachIndex } ::
      buildLegs fuel (i + 1)

/-- The leg list produced by initializeSimulation. -/
def initLegStates : List LegState := buildLegs LEG_PAIRS 0

/-- The stance (power-stroke) branch of drawLeg: two-bone IK from the attach
    point to the planted foot position, with the clamped extended / folded /
    law-of-cosines branches of the source; returns the knee position. -/
def solveStanceLeg (attach foot : Point) (side : ℝ) : Point :=
  let dx := foot.x - attach.x
  let dy := foot.y - attach.y
  let distToFoot := hypot dx dy
  let angleToFoot := atan2 dy dx
  if distToFoot ≥ THIGH_LENGTH + CALF_LENGTH - 0.1 then
    let r := THIGH_LENGTH / (THIGH_LENGTH + CALF_LENGTH)
    ⟨attach.x + dx * r, attach.y + dy * r⟩
  else if distToFoot ≤ |THIGH_LENGTH - CALF_LENGTH| + 0.1 then
    let denom := if THIGH_LENGTH - CALF_LENGTH = 0 then THIGH_LENGTH
      else THIGH_LENGTH - CALF_LENGTH
    let r := THIGH_LENGTH / denom
    ⟨attach.x + dx * r, attach.y + dy * r⟩
  else
    let angleOffsetVal := Real.arccos (clamp11
      ((THIGH_LENGTH * THIGH_LENGTH + distToFoot * distToFoot - CALF_LENGTH * CALF_LENGTH) /
        (2 * THIGH_LENGTH * distToFoot)))
    let kneeAngle := angleToFoot + angleOffsetVal * side
    ⟨attach.x + THIGH_LENGTH * Real.cos kneeAngle,
      attach.y + THIGH_LENGTH * Real.sin kneeAngle⟩

/-- Euclidean distance between two points. -/
def pdist (a b : Point) : ℝ := hypot (b.x - a.x) (b.y - a.y)

/-- Euclidean distance between two segments' positions. -/
def segDist (a b : Segment) : ℝ := hypot (b.x - a.x) (b.y - a.y)

/-- Default segment for out-of-range list reads in theorem statements. -/
def dfltSeg : Segment := ⟨0, 0, 0, 0, 0⟩

/-- The head segment of the state sits exactly at point `p`. -/
def HeadAt (s : SimState) (p : Point) : Prop :=
  match s.segments with
  | [] => False
  | h :: _ => h.x = p.x ∧ h.y = p.y

/-- Invariant for a driver held stationary at `p`: nonempty chain, head
    already at `p`, activity factor within [0,1]. -/
def StatInv (p : Point) (s : SimState) : Prop :=
  s.segments ≠ [] ∧ HeadAt s p ∧
    0 ≤ s.currentUndulationMagnitudeFactor ∧ s.currentUndulationMagnitudeFactor ≤ 1

/-- A concrete one-segment resting state used by witnesses. -/
def witnessChain : SimState :=
  { segments := [⟨0, 0, 0, 9, 1⟩], headSpeed := 0, undulationTime := 0,
    currentUndulationMagnitudeFactor := 0, globalLegCycleTime := 0, legStates := [] }

/-- A concrete full-size (45-segment) resting state used by witnesses. -/
def chain45 : SimState :=
  { segments := List.replicate SEGMENT_COUNT ⟨0, 0, 0, 9, 1⟩, headSpeed := 0,
    undulationTime := 0, currentUndulationMagnitudeFactor := 0,
    globalLegCycleTime := 0, legStates := [] }

end

/-! ### Basic facts about the embedded operations -/

theorem hypot_nonneg (a b : ℝ) : 0 ≤ hypot a b := Real.sqrt_nonneg _

theorem hypot_zero : hypot 0 0 = 0 := by
  simp [hypot, Real.sqrt_zero]

theorem hypot_zero_right (a : ℝ) : hypot a 0 = |a| := by
  simp [hypot, Real.sqrt_mul_self_eq_abs]

theorem hypot_zero_right_of_nonneg (a : ℝ) (h : 0 ≤ a) : hypot a 0 = a := by
  rw [hypot_zero_right, abs_of_nonneg h]

theorem cascade_length (rest : List Segment) :
    ∀ (prev : Segment) (i : ℕ) (undT mag : ℝ),
      (cascade prev rest i undT mag).length = rest.length := by
  induction rest with
  | nil => intro prev i undT mag; simp [cascade]
  | cons cur tail ih => intro prev i undT mag; simp [cascade, ih]

theorem mainLoopTick_segments_length (s : SimState) (t : Point) :
    (mainLoopTick s t).segments.length = s.segments.length := by
  cases hs : s.segments with
  | nil => simp [mainLoopTick, hs]
  | cons h rest => simp [mainLoopTick, hs, cascade_length]

theorem mainLoopTick_segments_ne_nil (s : SimState) (t : Point)
    (hseg : s.segments ≠ []) : (mainLoopTick s t).segments ≠ [] := by
  cases hs : s.segments with
  | nil => exact absurd hs hseg
  | cons h rest => simp [mainLoopTick, hs]

/-! ### C1: the head follows the driver exactly -/

/-- C1: after every tick (on a nonempty chain) the head segment's position is
    exactly the driver position supplied for that tick — for every state and
    every driver point, with no speed clamping: the driver target may be
    arbitrarily far away and is still reached in this single tick. -/
theorem head_follows_driver (s : SimState) (t : Point) (hseg : s.segments ≠ []) :
    HeadAt (mainLoopTick s t) t := by
  cases hs : s.segments with
  | nil => exact absurd hs hseg
  | cons h rest => simp [mainLoopTick, hs, HeadAt]

/-- Witness for C1: a concrete one-tick run in which the driver jumps from the
    head's position (0,0) to (100,0); the head is at (100,0) after the tick. -/
theorem head_follows_driver_witness :
    HeadAt
      (mainLoopTick
        { segments := [⟨0, 0, 0, 9, 1⟩], headSpeed := 0, undulationTime := 0,
          currentUndulationMagnitudeFactor := 0, globalLegCycleTime := 0, legStates := [] }
        ⟨100, 0⟩)
      ⟨100, 0⟩ :=
  head_follows_driver _ _ (by simp)

/-! ### C5: the planted foot is held fixed through STANCE -/

theorem updateLeg_keeps_planted (segs : List Segment) (g speed : ℝ) (l : LegState)
    (hst : l.isPowerStroke = true)
    (hph : (updateLeg segs g speed l).cyclePhase < POWER_STROKE_CUT) :
    (updateLeg segs g speed l).footPlantedWorldPos = l.footPlantedWorldPos := by
  unfold updateLeg at hph ⊢
  cases hp : segs[l.segmentAttachIndex]? with
  | none => simp [hp]
  | some parent =>
    simp only [hp] at hph ⊢
    by_cases hc : cyclePhaseOf g (phaseOffsetOf l.segmentAttachIndex) < POWER_STROKE_CUT
    · simp [if_pos hc, hst]
    · simp only [if_neg hc] at hph
      exact absurd hph hc

/-- C5: for every leg, if the leg was in STANCE before a tick (its stored
    power-stroke flag is set, i.e. its previous cycle phase was below the
    stance ratio) and its cycle phase after the tick is still below the
    stance ratio 0.65 (so no SWING→STANCE edge occurs), then the stored
    planted foot world position is unchanged by the tick. -/
theorem planted_foot_stable_in_stance (s : SimState) (t : Point) (j : ℕ)
    (l l' : LegState)
    (hl : s.legStates[j]? = some l)
    (hl' : (mainLoopTick s t).legStates[j]? = some l')
    (hst : l.isPowerStroke = true)
    (hph : l'.cyclePhase < POWER_STROKE_CUT) :
    l'.footPlantedWorldPos = l.footPlantedWorldPos := by
  cases hs : s.segments with
  | nil =>
    have hid : mainLoopTick s t = s := by simp [mainLoopTick, hs]
    rw [hid, hl] at hl'
    cases hl'
    rfl
  | cons h rest =>
    simp only [mainLoopTick, hs, List.getElem?_map, hl, Option.map_some'] at hl'
    cases hl'
    exact updateLeg_keeps_planted _ _ _ _ hst hph

/-- Witness for C5: a concrete tick in which a leg in STANCE (phase 0.3,
    planted foot at (1,2)) keeps its planted foot position unchanged. -/
theorem planted_foot_stable_in_stance_witness :
    (⟨0, 0, 1, 0.3, true, some ⟨1, 2⟩, 0, 5⟩ : LegState).footPlantedWorldPos =
      (⟨0, 0, 1, 0.3, true, some ⟨1, 2⟩, 0, 5⟩ : LegState).footPlantedWorldPos :=
  planted_foot_stable_in_stance
    { segments := [⟨0, 0, 0, 9, 1⟩], headSpeed := 0, undulationTime := 0,
      currentUndulationMagnitudeFactor := 0, globalLegCycleTime := 0,
      legStates := [⟨0, 0, 1, 0.3, true, some ⟨1, 2⟩, 0, 5⟩] }
    ⟨3, 4⟩ 0 _ _ rfl
    (by simp [mainLoopTick, updateLeg, cascade])
    rfl (by norm_num [POWER_STROKE_CUT])

/-! ### C9: out-of-bounds legs are skipped; the acos argument is clamped -/

theorem updateLeg_out_of_bounds (segs : List Segment) (g speed : ℝ) (leg : LegState)
    (h : segs.length ≤ leg.segmentAttachIndex) :
    updateLeg segs g speed leg = leg := by
  unfold updateLeg
  rw [List.getElem?_eq_none h]

/-- C9: (a) a leg whose attach segment index is outside the chain's bounds is
    skipped by the tick — its state is returned untouched, no error; (b) the
    clamp applied to the IK acos argument in drawLeg always yields a value in
    [-1, 1], so the law-of-cosines branch is total. -/
theorem leg_skip_and_clamp :
    (∀ (s : SimState) (t : Point) (j : ℕ) (leg : LegState),
        s.legStates[j]? = some leg →
        s.segments.length ≤ leg.segmentAttachIndex →
        (mainLoopTick s t).legStates[j]? = some leg)
    ∧ (∀ x : ℝ, -1 ≤ clamp11 x ∧ clamp11 x ≤ 1) := by
  constructor
  · intro s t j leg hl hb
    cases hs : s.segments with
    | nil => simpa [mainLoopTick, hs] using hl
    | cons h rest =>
      rw [hs] at hb
      simp only [List.length_cons] at hb
      simp only [mainLoopTick, hs, List.getElem?_map, hl, Option.map_some',
        Option.some.injEq]
      exact updateLeg_out_of_bounds _ _ _ _
        (by simp only [List.length_cons, cascade_length]; omega)
  · intro x
    exact ⟨le_min (by norm_num) (le_max_left _ _), min_le_left _ _⟩

/-- Witness for C9: a concrete tick on a one-segment chain in which a leg
    attached at the out-of-range index 5 is returned untouched, and the clamp
    at the concrete out-of-range acos argument 7 lands in [-1, 1]. -/
theorem leg_skip_and_clamp_witness :
    (mainLoopTick
        { segments := [⟨0, 0, 0, 9, 1⟩], headSpeed := 0, undulationTime := 0,
          currentUndulationMagnitudeFactor := 0, globalLegCycleTime := 0,
          legStates := [⟨0, 0, 1, 0.3, true, some ⟨1, 2⟩, 0, 5⟩] }
        ⟨3, 4⟩).legStates[0]? = some ⟨0, 0, 1, 0.3, true, some ⟨1, 2⟩, 0, 5⟩
    ∧ -1 ≤ clamp11 7 ∧ clamp11 7 ≤ 1 :=
  ⟨leg_skip_and_clamp.1 _ _ 0 _ rfl (by norm_num),
    (leg_skip_and_clamp.2 7).1, (leg_skip_and_clamp.2 7).2⟩

/-! ### Activity governor: bounds, stationary decay, snap to zero -/

theorem updateActivity_mem (mag speed : ℝ) (h0 : 0 ≤ mag) (h1 : mag ≤ 1) :
    0 ≤ updateActivity mag speed ∧ updateActivity mag speed ≤ 1 := by
  simp only [updateActivity, UNDULATION_SETTLE_SPEED]
  split_ifs <;> constructor <;> nlinarith

theorem updateActivity_zero_speed (mag : ℝ) (h0 : 0 ≤ mag) (h1 : mag ≤ 1) :
    updateActivity mag 0 = if mag * 0.85 < 0.01 then 0 else mag * 0.85 := by
  have hs : ¬ ((0 : ℝ) > 0.5) := by norm_num
  simp only [updateActivity, if_neg hs, UNDULATION_SETTLE_SPEED]
  have hm : mag + (0.0 - mag) * 0.15 = mag * 0.85 := by ring
  rw [hm, abs_of_nonneg (by nlinarith : (0 : ℝ) ≤ mag * 0.85)]
  have h2 : ¬ |mag * 0.85 - 1.0| < 0.01 := by
    rw [abs_of_neg (by nlinarith : mag * 0.85 - 1.0 < 0)]
    nlinarith
  rw [if_neg h2]

theorem updateActivity_zero_speed_le (mag : ℝ) (h0 : 0 ≤ mag) (h1 : mag ≤ 1) :
    updateActivity mag 0 ≤ 0.85 * mag ∧ 0 ≤ updateActivity mag 0 := by
  rw [updateActivity_zero_speed mag h0 h1]
  by_cases h : mag * 0.85 < 0.01
  · rw [if_pos h]
    constructor <;> nlinarith
  · rw [if_neg h]
    constructor <;> nlinarith

theorem updateActivity_zero : updateActivity 0 0 = 0 := by
  rw [updateActivity_zero_speed 0 le_rfl zero_le_one]
  norm_num

theorem tick_headAt (s : SimState) (t : Point) (hseg : s.segments ≠ []) :
    HeadAt (mainLoopTick s t) t := by
  cases hs : s.segments with
  | nil => exact absurd hs hseg
  | cons h rest => simp [mainLoopTick, hs, HeadAt]

theorem tick_mag_eq (s : SimState) (t : Point) (hseg : s.segments ≠ []) :
    (mainLoopTick s t).currentUndulationMagnitudeFactor
      = updateActivity s.currentUndulationMagnitudeFactor ((mainLoopTick s t).headSpeed) := by
  cases hs : s.segments with
  | nil => exact absurd hs hseg
  | cons h rest => simp [mainLoopTick, hs]

theorem tick_mag_mem (s : SimState) (t : Point) (hseg : s.segments ≠ [])
    (h0 : 0 ≤ s.currentUndulationMagnitudeFactor)
    (h1 : s.currentUndulationMagnitudeFactor ≤ 1) :
    0 ≤ (mainLoopTick s t).currentUndulationMagnitudeFactor ∧
      (mainLoopTick s t).currentUndulationMagnitudeFactor ≤ 1 := by
  rw [tick_mag_eq s t hseg]
  exact updateActivity_mem _ _ h0 h1

theorem statInv_tick (p : Point) (s : SimState) (h : StatInv p s) :
    StatInv p (tickAt p s) ∧
      (tickAt p s).currentUndulationMagnitudeFactor
        = updateActivity s.currentUndulationMagnitudeFactor 0 := by
  obtain ⟨hseg, hhead, h0, h1⟩ := h
  cases hs : s.segments with
  | nil => exact absurd hs hseg
  | cons hd rest =>
    have hx : hd.x = p.x ∧ hd.y = p.y := by simpa [HeadAt, hs] using hhead
    have hsp : hypot (p.x - hd.x) (p.y - hd.y) = 0 := by
      rw [hx.1, hx.2, sub_self, sub_self, hypot_zero]
    have hmag : (tickAt p s).currentUndulationMagnitudeFactor
        = updateActivity s.currentUndulationMagnitudeFactor 0 := by
      simp only [tickAt, mainLoopTick, hs, hsp]
    refine ⟨⟨mainLoopTick_segments_ne_nil s p hseg, tick_headAt s p hseg, ?_, ?_⟩, hmag⟩
    · rw [hmag]
      exact (updateActivity_mem _ _ h0 h1).1
    · rw [hmag]
      exact (updateActivity_mem _ _ h0 h1).2

theorem statInv_iterate (p : Point) (s : SimState) (h : StatInv p s) :
    ∀ k, StatInv p ((tickAt p)^[k] s) := by
  intro k
  induction k with
  | zero => simpa using h
  | succ n ih =>
    rw [Function.iterate_succ_apply']
    exact (statInv_tick p _ ih).1

theorem iterate_mag_le (p : Point) (s : SimState) (h : StatInv p s) :
    ∀ k, ((tickAt p)^[k] s).currentUndulationMagnitudeFactor
      ≤ (0.85 : ℝ) ^ k * s.currentUndulationMagnitudeFactor := by
  intro k
  induction k with
  | zero => simp
  | succ n ih =>
    rw [Function.iterate_succ_apply']
    have hinv := statInv_iterate p s h n
    have hstep := (statInv_tick p _ hinv).2
    obtain ⟨hne, hh, h0, h1⟩ := hinv
    have hle := (updateActivity_zero_speed_le _ h0 h1).1
    calc (tickAt p ((tickAt p)^[n] s)).currentUndulationMagnitudeFactor
        = updateActivity ((tickAt p)^[n] s).currentUndulationMagnitudeFactor 0 := hstep
      _ ≤ 0.85 * ((tickAt p)^[n] s).currentUndulationMagnitudeFactor := hle
      _ ≤ 0.85 * ((0.85 : ℝ) ^ n * s.currentUndulationMagnitudeFactor) :=
          mul_le_mul_of_nonneg_left ih (by norm_num)
      _ = (0.85 : ℝ) ^ (n + 1) * s.currentUndulationMagnitudeFactor := by ring

theorem stationary_mag_zero (p : Point) (s : SimState) (h : StatInv p s) :
    ∀ k, 29 ≤ k → ((tickAt p)^[k] s).currentUndulationMagnitudeFactor = 0 := by
  intro k hk
  induction k, hk using Nat.le_induction with
  | base =>
    rw [show (29 : ℕ) = 28 + 1 from rfl, Function.iterate_succ_apply']
    have hinv := statInv_iterate p s h 28
    have hstep := (statInv_tick p _ hinv).2
    have hle := iterate_mag_le p s h 28
    have hs1 : s.currentUndulationMagnitudeFactor ≤ 1 := h.2.2.2
    obtain ⟨hne, hh, h0, h1⟩ := hinv
    have hpow : (0.85 : ℝ) ^ 28 * 0.85 < 0.01 := by norm_num
    have hcond : ((tickAt p)^[28] s).currentUndulationMagnitudeFactor * 0.85 < 0.01 := by
      have hp : (0 : ℝ) ≤ (0.85 : ℝ) ^ 28 := by positivity
      nlinarith
    rw [hstep, updateActivity_zero_speed _ h0 h1, if_pos hcond]
  | succ n hn ih =>
    rw [Function.iterate_succ_apply']
    have hstep := (statInv_tick p _ (statInv_iterate p s h n)).2
    rw [hstep, ih, updateActivity_zero]

theorem statInv_start (s : SimState) (p : Point) (hseg : s.segments ≠ [])
    (h0 : 0 ≤ s.currentUndulationMagnitudeFactor)
    (h1 : s.currentUndulationMagnitudeFactor ≤ 1) :
    StatInv p (tickAt p s) :=
  ⟨mainLoopTick_segments_ne_nil s p hseg, tick_headAt s p hseg,
    (tick_mag_mem s p hseg h0 h1).1, (tick_mag_mem s p hseg h0 h1).2⟩

theorem start_mag_zero (s : SimState) (p : Point) (hseg : s.segments ≠ [])
    (h0 : 0 ≤ s.currentUndulationMagnitudeFactor)
    (h1 : s.currentUndulationMagnitudeFactor ≤ 1) :
    ∀ k, 30 ≤ k → ((tickAt p)^[k] s).currentUndulationMagnitudeFactor = 0 := by
  intro k hk
  obtain ⟨m, rfl⟩ : ∃ m, k = m + 1 := ⟨k - 1, by omega⟩
  rw [Function.iterate_succ_apply]
  exact stationary_mag_zero p (tickAt p s) (statInv_start s p hseg h0 h1) m (by omega)

theorem statInv_iterate_of_start (s : SimState) (p : Point) (hseg : s.segments ≠ [])
    (h0 : 0 ≤ s.currentUndulationMagnitudeFactor)
    (h1 : s.currentUndulationMagnitudeFactor ≤ 1) :
    ∀ k, 1 ≤ k → StatInv p ((tickAt p)^[k] s) := by
  intro k hk
  obtain ⟨m, rfl⟩ : ∃ m, k = m + 1 := ⟨k - 1, by omega⟩
  rw [Function.iterate_succ_apply]
  exact statInv_iterate p (tickAt p s) (statInv_start s p hseg h0 h1) m

theorem tick_clocks_frozen (s : SimState) (p : Point) (h : StatInv p s)
    (hm : s.currentUndulationMagnitudeFactor = 0) :
    (tickAt p s).undulationTime = s.undulationTime ∧
      (tickAt p s).globalLegCycleTime = s.globalLegCycleTime := by
  obtain ⟨hseg, hhead, h0, h1⟩ := h
  cases hs : s.segments with
  | nil => exact absurd hs hseg
  | cons hd rest =>
    have hx : hd.x = p.x ∧ hd.y = p.y := by simpa [HeadAt, hs] using hhead
    have hsp : hypot (p.x - hd.x) (p.y - hd.y) = 0 := by
      rw [hx.1, hx.2, sub_self, sub_self, hypot_zero]
    have hcond : ¬ (updateActivity s.currentUndulationMagnitudeFactor
        (hypot (p.x - hd.x) (p.y - hd.y)) > 0.05) := by
      rw [hsp, hm, updateActivity_zero]
      norm_num
    simp only [tickAt, mainLoopTick, hs]
    rw [if_neg hcond, if_neg hcond]
    exact ⟨rfl, rfl⟩

/-! ### C3: the activity factor's dynamics -/

/-- C3: from any state whose activity factor is within [0,1] (in particular
    from the initial 0): (a) after a tick the activity factor is still within
    [0,1], for every driver input; (b) each tick updates it by the first-order
    smoothing rule with settle rate 0.15 and target 1 iff this tick's head
    speed exceeds 0.5, snapped to exactly 0 or 1 once within 0.01 of that
    bound (this is `updateActivity`, applied to this tick's head speed); and
    (c) holding the driver stationary at any point p for 30 or more ticks
    drives the factor to exactly 0, where further ticks with the same driver
    leave it at 0. -/
theorem activity_factor_behavior (s : SimState) (t : Point)
    (hseg : s.segments ≠ []) (h0 : 0 ≤ s.currentUndulationMagnitudeFactor)
    (h1 : s.currentUndulationMagnitudeFactor ≤ 1) :
    (0 ≤ (mainLoopTick s t).currentUndulationMagnitudeFactor
      ∧ (mainLoopTick s t).currentUndulationMagnitudeFactor ≤ 1)
    ∧ (mainLoopTick s t).currentUndulationMagnitudeFactor
        = updateActivity s.currentUndulationMagnitudeFactor ((mainLoopTick s t).headSpeed)
    ∧ ∀ (p : Point) (k : ℕ), 30 ≤ k →
        ((tickAt p)^[k] s).currentUndulationMagnitudeFactor = 0 :=
  ⟨tick_mag_mem s t hseg h0 h1, tick_mag_eq s t hseg,
    fun p k hk => start_mag_zero s p hseg h0 h1 k hk⟩

/-- Witness for C3: the concrete resting one-segment chain, driver jumping to
    (100,0) for one tick, then held at (100,0): the bounds hold, the update
    rule holds, and after 30 stationary ticks the factor is exactly 0. -/
theorem activity_factor_behavior_witness :
    (0 ≤ (mainLoopTick witnessChain ⟨100, 0⟩).currentUndulationMagnitudeFactor
      ∧ (mainLoopTick witnessChain ⟨100, 0⟩).currentUndulationMagnitudeFactor ≤ 1)
    ∧ (mainLoopTick witnessChain ⟨100, 0⟩).currentUndulationMagnitudeFactor
        = updateActivity witnessChain.currentUndulationMagnitudeFactor
            ((mainLoopTick witnessChain ⟨100, 0⟩).headSpeed)
    ∧ ((tickAt ⟨100, 0⟩)^[30] witnessChain).currentUndulationMagnitudeFactor = 0 := by
  obtain ⟨ha, hb, hc⟩ := activity_factor_behavior witnessChain ⟨100, 0⟩
    (by simp [witnessChain]) (by norm_num [witnessChain]) (by norm_num [witnessChain])
  exact ⟨ha, hb, hc ⟨100, 0⟩ 30 (by norm_num)⟩

/-! ### C4: the two clocks freeze while inactive -/

/-- C4: (a) in any tick whose (just-updated) activity factor does not exceed
    the 0.05 threshold, neither the undulation wave-time accumulator nor the
    global gait clock advances; (b) holding the driver stationary long enough
    (30 ticks, after which the factor has snapped to exactly 0), both clocks
    are unchanged by every subsequent tick. -/
theorem clocks_freeze_when_inactive :
    (∀ (s : SimState) (t : Point),
        ¬ 0.05 < (mainLoopTick s t).currentUndulationMagnitudeFactor →
        (mainLoopTick s t).undulationTime = s.undulationTime ∧
          (mainLoopTick s t).globalLegCycleTime = s.globalLegCycleTime)
    ∧ (∀ (s : SimState) (p : Point), s.segments ≠ [] →
        0 ≤ s.currentUndulationMagnitudeFactor →
        s.currentUndulationMagnitudeFactor ≤ 1 →
        ∀ k, 30 ≤ k →
          ((tickAt p)^[k + 1] s).undulationTime = ((tickAt p)^[k] s).undulationTime ∧
            ((tickAt p)^[k + 1] s).globalLegCycleTime
              = ((tickAt p)^[k] s).globalLegCycleTime) := by
  constructor
  · intro s t hm
    cases hs : s.segments with
    | nil => simp [mainLoopTick, hs]
    | cons h rest =>
      simp only [mainLoopTick, hs] at hm ⊢
      rw [if_neg hm, if_neg hm]
      exact ⟨rfl, rfl⟩
  · intro s p hseg h0 h1 k hk
    have hzero := start_mag_zero s p hseg h0 h1 k hk
    have hinv := statInv_iterate_of_start s p hseg h0 h1 k (by omega)
    rw [Function.iterate_succ_apply']
    exact tick_clocks_frozen _ p hinv hzero

/-- Witness for C4: on the concrete resting chain with the driver at the
    head's position the activity factor stays 0 ≤ 0.05 and the clocks are
    unchanged; and after 30 ticks with the driver held at (100,0) the next
    tick leaves both clocks unchanged. -/
theorem clocks_freeze_when_inactive_witness :
    ((mainLoopTick witnessChain ⟨0, 0⟩).undulationTime = witnessChain.undulationTime ∧
      (mainLoopTick witnessChain ⟨0, 0⟩).globalLegCycleTime
        = witnessChain.globalLegCycleTime)
    ∧ ((tickAt ⟨100, 0⟩)^[30 + 1] witnessChain).undulationTime
        = ((tickAt ⟨100, 0⟩)^[30] witnessChain).undulationTime ∧
      ((tickAt ⟨100, 0⟩)^[30 + 1] witnessChain).globalLegCycleTime
        = ((tickAt ⟨100, 0⟩)^[30] witnessChain).globalLegCycleTime := by
  constructor
  · refine clocks_freeze_when_inactive.1 witnessChain ⟨0, 0⟩ ?_
    have hmg : (mainLoopTick witnessChain ⟨0, 0⟩).currentUndulationMagnitudeFactor = 0 := by
      simp [mainLoopTick, witnessChain, hypot_zero, updateActivity_zero]
    rw [hmg]
    norm_num
  · exact clocks_freeze_when_inactive.2 witnessChain ⟨100, 0⟩ (by simp [witnessChain])
      (by norm_num [witnessChain]) (by norm_num [witnessChain]) 30 (by norm_num)

/-! ### C2: consecutive segment spacing stays within the undulation bound -/

theorem hypot_two_rot (L r θ φ : ℝ) (hL : 0 ≤ L) :
    |hypot (r * Real.cos φ - L * Real.cos θ) (r * Real.sin φ - L * Real.sin θ) - L|
      ≤ |r| := by
  have e1 := Real.sin_sq_add_cos_sq θ
  have e2 := Real.sin_sq_add_cos_sq φ
  have hc1 := Real.neg_one_le_cos (φ - θ)
  have hc2 := Real.cos_le_one (φ - θ)
  have hE : (r * Real.cos φ - L * Real.cos θ) * (r * Real.cos φ - L * Real.cos θ)
      + (r * Real.sin φ - L * Real.sin θ) * (r * Real.sin φ - L * Real.sin θ)
      = r ^ 2 + L ^ 2 - 2 * L * (r * Real.cos (φ - θ)) := by
    rw [Real.cos_sub]
    linear_combination r ^ 2 * e2 + L ^ 2 * e1
  have habs : |r * Real.cos (φ - θ)| ≤ |r| := by
    rw [abs_mul]
    calc |r| * |Real.cos (φ - θ)|
        ≤ |r| * 1 := mul_le_mul_of_nonneg_left (abs_le.mpr ⟨hc1, hc2⟩) (abs_nonneg r)
      _ = |r| := mul_one _
  have hrc_le : r * Real.cos (φ - θ) ≤ |r| := le_trans (le_abs_self _) habs
  have hrc_ge : -|r| ≤ r * Real.cos (φ - θ) := by
    have := neg_abs_le (r * Real.cos (φ - θ))
    linarith
  have hub : (r * Real.cos φ - L * Real.cos θ) * (r * Real.cos φ - L * Real.cos θ)
      + (r * Real.sin φ - L * Real.sin θ) * (r * Real.sin φ - L * Real.sin θ)
      ≤ (L + |r|) ^ 2 := by
    rw [hE]
    nlinarith [mul_nonneg hL (show 0 ≤ |r| + r * Real.cos (φ - θ) by linarith),
      sq_abs r]
  have hlb : (L - |r|) ^ 2
      ≤ (r * Real.cos φ - L * Real.cos θ) * (r * Real.cos φ - L * Real.cos θ)
        + (r * Real.sin φ - L * Real.sin θ) * (r * Real.sin φ - L * Real.sin θ) := by
    rw [hE]
    nlinarith [mul_nonneg hL (show 0 ≤ |r| - r * Real.cos (φ - θ) by linarith),
      sq_abs r]
  have hDub : hypot (r * Real.cos φ - L * Real.cos θ) (r * Real.sin φ - L * Real.sin θ)
      ≤ L + |r| := by
    simp only [hypot]
    calc Real.sqrt ((r * Real.cos φ - L * Real.cos θ) * (r * Real.cos φ - L * Real.cos θ)
          + (r * Real.sin φ - L * Real.sin θ) * (r * Real.sin φ - L * Real.sin θ))
        ≤ Real.sqrt ((L + |r|) ^ 2) := Real.sqrt_le_sqrt hub
      _ = L + |r| := Real.sqrt_sq (by positivity)
  have hDlb : L - |r|
      ≤ hypot (r * Real.cos φ - L * Real.cos θ) (r * Real.sin φ - L * Real.sin θ) := by
    simp only [hypot]
    calc L - |r| ≤ abs (L - |r|) := le_abs_self _
      _ = Real.sqrt ((L - |r|) ^ 2) := (Real.sqrt_sq_eq_abs _).symm
      _ ≤ Real.sqrt ((r * Real.cos φ - L * Real.cos θ) * (r * Real.cos φ - L * Real.cos θ)
            + (r * Real.sin φ - L * Real.sin θ) * (r * Real.sin φ - L * Real.sin θ)) :=
          Real.sqrt_le_sqrt hlb
  rw [abs_le]
  constructor <;> linarith

theorem followStep_dist_core (px py L off θ φ : ℝ) (hL : 0 ≤ L) :
    |hypot ((px - Real.cos θ * L + off * Real.cos φ) - px)
        ((py - Real.sin θ * L + off * Real.sin φ) - py) - L| ≤ |off| := by
  have h1 : (px - Real.cos θ * L + off * Real.cos φ) - px
      = off * Real.cos φ - L * Real.cos θ := by ring
  have h2 : (py - Real.sin θ * L + off * Real.sin φ) - py
      = off * Real.sin φ - L * Real.sin θ := by ring
  rw [h1, h2]
  exact hypot_two_rot L off θ φ hL

theorem followStep_dist (prev cur : Segment) (i : ℕ) (undT mag : ℝ)
    (hm : 0 ≤ mag) (hL : 0 ≤ cur.length) :
    |segDist prev (followStep prev cur i undT mag)
        - (followStep prev cur i undT mag).length|
      ≤ UNDULATION_AMPLITUDE
        * |Real.sin (Real.pi * ((i : ℝ) / ((SEGMENT_COUNT : ℝ) - 1)))| * mag := by
  simp only [followStep, segDist]
  refine le_trans (followStep_dist_core prev.x prev.y cur.length _ _ _ hL) ?_
  have hAnn : (0 : ℝ) ≤ UNDULATION_AMPLITUDE := by
    rw [UNDULATION_AMPLITUDE]
    norm_num
  have habs : |UNDULATION_AMPLITUDE
        * Real.sin (((i : ℝ) / (SEGMENT_COUNT : ℝ)) * Real.pi * 2 * UNDULATION_FREQUENCY
            - undT)
        * Real.sin (Real.pi * ((i : ℝ) / ((SEGMENT_COUNT : ℝ) - 1))) * mag|
      = UNDULATION_AMPLITUDE
        * |Real.sin (((i : ℝ) / (SEGMENT_COUNT : ℝ)) * Real.pi * 2 * UNDULATION_FREQUENCY
            - undT)|
        * |Real.sin (Real.pi * ((i : ℝ) / ((SEGMENT_COUNT : ℝ) - 1)))| * |mag| := by
    rw [abs_mul, abs_mul, abs_mul, abs_of_nonneg hAnn]
  rw [habs, abs_of_nonneg hm]
  have hs1 : |Real.sin (((i : ℝ) / (SEGMENT_COUNT : ℝ)) * Real.pi * 2 * UNDULATION_FREQUENCY
      - undT)| ≤ 1 :=
    abs_le.mpr ⟨Real.neg_one_le_sin _, Real.sin_le_one _⟩
  have key : 0 ≤ UNDULATION_AMPLITUDE
      * |Real.sin (Real.pi * ((i : ℝ) / ((SEGMENT_COUNT : ℝ) - 1)))| * mag
      * (1 - |Real.sin (((i : ℝ) / (SEGMENT_COUNT : ℝ)) * Real.pi * 2 * UNDULATION_FREQUENCY
          - undT)|) := by
    apply mul_nonneg
    · apply mul_nonneg (mul_nonneg hAnn (abs_nonneg _)) hm
    · linarith
  nlinarith [key]

theorem cascade_spacing (rest : List Segment) :
    ∀ (prev : Segment) (i : ℕ) (undT mag : ℝ),
      0 ≤ mag → (∀ sg ∈ rest, 0 ≤ sg.length) →
      ∀ j : ℕ, j < rest.length →
        |segDist ((prev :: cascade prev rest i undT mag).getD j dfltSeg)
            ((cascade prev rest i undT mag).getD j dfltSeg)
          - ((cascade prev rest i undT mag).getD j dfltSeg).length|
        ≤ UNDULATION_AMPLITUDE
          * |Real.sin (Real.pi * (((i + j : ℕ) : ℝ) / ((SEGMENT_COUNT : ℝ) - 1)))| * mag := by
  induction rest with
  | nil =>
    intro prev i undT mag hm hL j hj
    simp at hj
  | cons cur tail ih =>
    intro prev i undT mag hm hL j hj
    simp only [cascade]
    cases j with
    | zero =>
      simp only [List.getD_cons_zero]
      have hc : ((i + 0 : ℕ) : ℝ) = (i : ℝ) := by norm_num
      rw [hc]
      exact followStep_dist prev cur i undT mag hm (hL cur (by simp))
    | succ m =>
      simp only [List.getD_cons_succ]
      have hj' : m < tail.length := by
        simp only [List.length_cons] at hj
        omega
      have hL' : ∀ sg ∈ tail, 0 ≤ sg.length := fun sg hsg => hL sg (by simp [hsg])
      have hres := ih (followStep prev cur i undT mag) (i + 1) undT mag hm hL' m hj'
      have hidx : (((i + 1) + m : ℕ) : ℝ) = ((i + (m + 1) : ℕ) : ℝ) := by
        push_cast
        ring
      rw [hidx] at hres
      exact hres

/-- C2: after a tick on the full 45-segment chain (activity factor within
    [0,1], nonnegative rest lengths), the distance between consecutive
    segments i-1 and i deviates from segment i's rest length by at most the
    undulation amplitude scaled by the taper for index i and the (just
    updated) activity factor. -/
theorem segment_spacing_bound (s : SimState) (t : Point)
    (hlen : s.segments.length = SEGMENT_COUNT)
    (h0 : 0 ≤ s.currentUndulationMagnitudeFactor)
    (h1 : s.currentUndulationMagnitudeFactor ≤ 1)
    (hL : ∀ sg ∈ s.segments, 0 ≤ sg.length) :
    ∀ i : ℕ, 0 < i → i < SEGMENT_COUNT →
      |segDist ((mainLoopTick s t).segments.getD (i - 1) dfltSeg)
          ((mainLoopTick s t).segments.getD i dfltSeg)
        - ((mainLoopTick s t).segments.getD i dfltSeg).length|
      ≤ UNDULATION_AMPLITUDE
        * Real.sin (Real.pi * ((i : ℝ) / ((SEGMENT_COUNT : ℝ) - 1)))
        * (mainLoopTick s t).currentUndulationMagnitudeFactor := by
  intro i hi0 hiN
  cases hs : s.segments with
  | nil =>
    rw [hs] at hlen
    simp [SEGMENT_COUNT] at hlen
  | cons hd rest =>
    obtain ⟨j, rfl⟩ : ∃ j, i = j + 1 := ⟨i - 1, by omega⟩
    have hrl : rest.length = 44 := by
      rw [hs] at hlen
      simp only [List.length_cons, SEGMENT_COUNT] at hlen
      omega
    have hjlen : j < rest.length := by
      rw [hrl]
      rw [SEGMENT_COUNT] at hiN
      omega
    have hL' : ∀ sg ∈ rest, 0 ≤ sg.length := fun sg hsg =>
      hL sg (by rw [hs]; exact List.mem_cons_of_mem _ hsg)
    have hj44 : (j : ℝ) ≤ 43 := by
      have : j ≤ 43 := by
        rw [SEGMENT_COUNT] at hiN
        omega
      exact_mod_cast this
    have hq : (((1 + j : ℕ)) : ℝ) / ((SEGMENT_COUNT : ℝ) - 1) ≤ 1 := by
      rw [SEGMENT_COUNT]
      push_cast
      rw [div_le_one (by norm_num)]
      linarith
    have hx0 : 0 ≤ Real.pi * (((1 + j : ℕ) : ℝ) / ((SEGMENT_COUNT : ℝ) - 1)) := by
      rw [SEGMENT_COUNT]
      positivity
    have hxle : Real.pi * (((1 + j : ℕ) : ℝ) / ((SEGMENT_COUNT : ℝ) - 1)) ≤ Real.pi := by
      nlinarith [Real.pi_pos, hq, hx0]
    have hsin : 0 ≤ Real.sin (Real.pi * (((1 + j : ℕ) : ℝ) / ((SEGMENT_COUNT : ℝ) - 1))) :=
      Real.sin_nonneg_of_nonneg_of_le_pi hx0 hxle
    have hcast : ((j + 1 : ℕ) : ℝ) = ((1 + j : ℕ) : ℝ) := by
      push_cast
      ring
    simp only [mainLoopTick, hs, Nat.add_sub_cancel]
    rw [List.getD_cons_succ, hcast, ← abs_of_nonneg hsin]
    exact cascade_spacing rest _ 1 _ _ ((updateActivity_mem _ _ h0 h1).1) hL' j hjlen

/-- Witness for C2: the concrete 45-segment resting chain, driver at (7,5),
    segment index 1. -/
theorem segment_spacing_bound_witness :
    |segDist ((mainLoopTick chain45 ⟨7, 5⟩).segments.getD (1 - 1) dfltSeg)
        ((mainLoopTick chain45 ⟨7, 5⟩).segments.getD 1 dfltSeg)
      - ((mainLoopTick chain45 ⟨7, 5⟩).segments.getD 1 dfltSeg).length|
    ≤ UNDULATION_AMPLITUDE
      * Real.sin (Real.pi * ((1 : ℕ) / ((SEGMENT_COUNT : ℝ) - 1)))
      * (mainLoopTick chain45 ⟨7, 5⟩).currentUndulationMagnitudeFactor :=
  segment_spacing_bound chain45 ⟨7, 5⟩ (by simp [chain45])
    (by norm_num [chain45]) (by norm_num [chain45])
    (by
      intro sg hsg
      rw [List.eq_of_mem_replicate hsg]
      norm_num)
    1 (by norm_num) (by norm_num [SEGMENT_COUNT])

/-! ### Facts about jsMod -/

theorem jsMod_one_of_nonneg (a : ℝ) (h : 0 ≤ a) : jsMod a 1.0 = Int.fract a := by
  unfold jsMod jsTrunc
  rw [show a / 1.0 = a by norm_num, if_pos h]
  rw [Int.fract]
  ring

theorem jsMod_one_nonpos (a : ℝ) (h : a < 0) : jsMod a 1.0 ≤ 0 := by
  unfold jsMod jsTrunc
  rw [show a / 1.0 = a by norm_num, if_neg (not_le.mpr h)]
  push_cast
  have := Int.floor_le (-a)
  linarith

theorem jsMod_one_eq_self (a : ℝ) (h0 : 0 ≤ a) (h1 : a < 1) : jsMod a 1.0 = a := by
  rw [jsMod_one_of_nonneg a h0, Int.fract_eq_self.mpr ⟨h0, h1⟩]

/-! ### C8: anti-phase legs and simultaneous stance/swing -/

/-- C8 counterexample: two legs whose metachronal phase offsets differ by
    exactly 0.5 (offsets 0 and 0.5), at gait-clock value 0, have cycle phases
    0 and 0.5 — both below the stance ratio 0.65, so both legs are in STANCE
    at that tick, refuting the claimed anti-phase property. -/
theorem antiphase_stance_cex :
    ((0.5 : ℝ) - 0 = 0.5)
    ∧ cyclePhaseOf 0 0 < POWER_STROKE_CUT
    ∧ cyclePhaseOf 0 0.5 < POWER_STROKE_CUT := by
  refine ⟨by norm_num, ?_, ?_⟩
  · have h : cyclePhaseOf 0 0 = 0 := by
      rw [cyclePhaseOf, add_zero, jsMod_one_eq_self 0 le_rfl (by norm_num)]
    rw [h, POWER_STROKE_CUT]
    norm_num
  · have h : cyclePhaseOf 0 0.5 = 0.5 := by
      rw [cyclePhaseOf, zero_add, jsMod_one_eq_self 0.5 (by norm_num) (by norm_num)]
    rw [h, POWER_STROKE_CUT]
    norm_num

/-- C8 amended: because the stance ratio 0.65 exceeds 0.5, two legs whose
    metachronal offsets differ by exactly 0.5 can be simultaneously in STANCE
    (see the counterexample); what does hold is the dual anti-phase property:
    they are never simultaneously in SWING — if one leg's cycle phase is at
    or above the stance ratio, its anti-phase partner's phase is below it. -/
theorem antiphase_never_both_swing (g o : ℝ)
    (h : ¬ cyclePhaseOf g o < POWER_STROKE_CUT) :
    cyclePhaseOf g (o + 0.5) < POWER_STROKE_CUT := by
  push_neg at h
  rw [cyclePhaseOf] at h ⊢
  set a := g + o with ha
  have hga : g + (o + 0.5) = a + 0.5 := by rw [ha]; ring
  rw [hga]
  have h0a : 0 ≤ a := by
    by_contra hneg
    push_neg at hneg
    have := jsMod_one_nonpos a hneg
    rw [POWER_STROKE_CUT] at h
    linarith
  rw [jsMod_one_of_nonneg a h0a] at h
  rw [jsMod_one_of_nonneg (a + 0.5) (by linarith)]
  have hu1 : Int.fract a < 1 := Int.fract_lt_one a
  rw [POWER_STROKE_CUT] at h ⊢
  have hsplit : a + 0.5 = ((⌊a⌋ + 1 : ℤ) : ℝ) + (Int.fract a - 0.5) := by
    have hf := Int.floor_add_fract a
    push_cast
    linarith
  rw [hsplit, Int.fract_int_add,
    Int.fract_eq_self.mpr ⟨by linarith, by linarith⟩]
  linarith

/-- Witness for the amended C8 theorem: a leg with phase 0.7 (in SWING) whose
    anti-phase partner (offset +0.5) has phase 0.2, hence is not in SWING. -/
theorem antiphase_never_both_swing_witness :
    cyclePhaseOf 0 (0.7 + 0.5) < POWER_STROKE_CUT :=
  antiphase_never_both_swing 0 0.7 (by
    rw [cyclePhaseOf, zero_add, jsMod_one_eq_self 0.7 (by norm_num) (by norm_num),
      POWER_STROKE_CUT]
    norm_num)

/-! ### C7: the fully-folded IK branch -/

/-- C7: evaluation of the stance IK at a fully-folded input.  With attach
    point (0,0), planted target (1,0) and side 1 the distance d = 1 is below
    |THIGH_LENGTH - CALF_LENGTH| = 2, yet the code's folded branch (which
    reuses the extended-branch ratio expression with denominator
    THIGH_LENGTH - CALF_LENGTH) places the knee at (9,0) — at distance 9 from
    the attach point instead of THIGH_LENGTH = 18 — and leaves the foot at the
    planted target, at distance 1 from the attach point instead of
    |THIGH_LENGTH - CALF_LENGTH| = 2.  This contradicts the specified folded
    geometry (and the source's own design intent per the spec's design note). -/
theorem ik_folded_eval :
    pdist ⟨0, 0⟩ ⟨1, 0⟩ ≤ |THIGH_LENGTH - CALF_LENGTH|
    ∧ solveStanceLeg ⟨0, 0⟩ ⟨1, 0⟩ 1 = ⟨9, 0⟩
    ∧ pdist ⟨0, 0⟩ (solveStanceLeg ⟨0, 0⟩ ⟨1, 0⟩ 1) = 9
    ∧ pdist ⟨0, 0⟩ ⟨1, 0⟩ = 1 := by
  have hd : pdist (⟨0, 0⟩ : Point) ⟨1, 0⟩ = 1 := by
    simp only [pdist]
    norm_num [hypot_zero_right_of_nonneg]
  have hsolve : solveStanceLeg ⟨0, 0⟩ ⟨1, 0⟩ 1 = ⟨9, 0⟩ := by
    simp only [solveStanceLeg]
    norm_num [hypot_zero_right_of_nonneg, THIGH_LENGTH, CALF_LENGTH]
  refine ⟨by rw [hd, THIGH_LENGTH, CALF_LENGTH]; norm_num, hsolve, ?_, hd⟩
  rw [hsolve]
  simp only [pdist]
  norm_num [hypot_zero_right_of_nonneg]

/-! ### C6 counterexample: the clamped folded fudge zone breaks exactness -/

/-- C6 counterexample: with attach (0,0), planted target (2.1, 0) and side 1
    the distance d = 2.1 is strictly inside the claimed reachable interval
    (|THIGH_LENGTH - CALF_LENGTH|, THIGH_LENGTH + CALF_LENGTH) = (2, 34), but
    the code takes its clamped folded branch (d ≤ 2.1) and places the knee at
    (18.9, 0): distance 18.9 from the attach point (off THIGH_LENGTH = 18 by
    0.9) and distance 16.8 from the foot (off CALF_LENGTH = 16 by 0.8) — far
    beyond any numerical epsilon, refuting the claim as stated. -/
theorem ik_reachable_epsilon_cex :
    |THIGH_LENGTH - CALF_LENGTH| < pdist ⟨0, 0⟩ ⟨2.1, 0⟩
    ∧ pdist ⟨0, 0⟩ ⟨2.1, 0⟩ < THIGH_LENGTH + CALF_LENGTH
    ∧ pdist ⟨0, 0⟩ (solveStanceLeg ⟨0, 0⟩ ⟨2.1, 0⟩ 1) = 18.9
    ∧ pdist (solveStanceLeg ⟨0, 0⟩ ⟨2.1, 0⟩ 1) ⟨2.1, 0⟩ = 16.8 := by
  have hd : pdist (⟨0, 0⟩ : Point) ⟨2.1, 0⟩ = 2.1 := by
    simp only [pdist]
    norm_num [hypot_zero_right_of_nonneg]
  have hsolve : solveStanceLeg ⟨0, 0⟩ ⟨2.1, 0⟩ 1 = ⟨18.9, 0⟩ := by
    simp only [solveStanceLeg]
    norm_num [hypot_zero_right_of_nonneg, THIGH_LENGTH, CALF_LENGTH]
  refine ⟨by rw [hd, THIGH_LENGTH, CALF_LENGTH]; norm_num,
    by rw [hd, THIGH_LENGTH, CALF_LENGTH]; norm_num, ?_, ?_⟩
  · rw [hsolve]
    simp only [pdist]
    norm_num [hypot_zero_right_of_nonneg]
  · rw [hsolve]
    simp only [pdist]
    norm_num [hypot_zero_right]

/-! ### C6 amended: exactness of the interior law-of-cosines IK branch -/

theorem hypot_cos_sin (r θ : ℝ) (hr : 0 ≤ r) :
    hypot (r * Real.cos θ) (r * Real.sin θ) = r := by
  simp only [hypot]
  have h : r * Real.cos θ * (r * Real.cos θ) + r * Real.sin θ * (r * Real.sin θ)
      = r ^ 2 * (Real.sin θ ^ 2 + Real.cos θ ^ 2) := by ring
  rw [h, Real.sin_sq_add_cos_sq, mul_one, Real.sqrt_sq hr]

/-- C6 amended: the claim's reachable interval must exclude the code's two
    clamped tolerance bands of width 0.1 (see the counterexample).  In the
    genuine law-of-cosines branch, |THIGH_LENGTH - CALF_LENGTH| + 0.1 < d <
    THIGH_LENGTH + CALF_LENGTH - 0.1, the solved knee satisfies
    distance(attach, knee) = THIGH_LENGTH and distance(knee, foot) =
    CALF_LENGTH exactly (the real-arithmetic model of "within numerical
    epsilon"), and the knee-bend direction is selected by the side sign: the
    cross product of the attach→foot and attach→knee vectors has the sign of
    `side`. -/
theorem ik_interior_exact (attach foot : Point) (side : ℝ)
    (hside : side = 1 ∨ side = -1)
    (hd1 : |THIGH_LENGTH - CALF_LENGTH| + 0.1 < pdist attach foot)
    (hd2 : pdist attach foot < THIGH_LENGTH + CALF_LENGTH - 0.1) :
    pdist attach (solveStanceLeg attach foot side) = THIGH_LENGTH
    ∧ pdist (solveStanceLeg attach foot side) foot = CALF_LENGTH
    ∧ 0 ≤ side *
        ((foot.x - attach.x) * ((solveStanceLeg attach foot side).y - attach.y)
          - (foot.y - attach.y) * ((solveStanceLeg attach foot side).x - attach.x)) := by
  obtain ⟨ax, ay⟩ := attach
  obtain ⟨fx, fy⟩ := foot
  simp only [pdist] at hd1 hd2 ⊢
  set dx := fx - ax with hdxh
  set dy := fy - ay with hdyh
  set d := hypot dx dy with hdd
  have hT : THIGH_LENGTH = 18 := rfl
  have hC : CALF_LENGTH = 16 := rfl
  have habs2 : |THIGH_LENGTH - CALF_LENGTH| = 2 := by
    rw [hT, hC]
    norm_num
  have hd21 : 2.1 < d := by
    rw [habs2] at hd1
    linarith
  have hd339 : d < 33.9 := by
    rw [hT, hC] at hd2
    linarith
  have hdpos : 0 < d := by linarith
  have hdne : d ≠ 0 := ne_of_gt hdpos
  have hb1 : ¬ (d ≥ THIGH_LENGTH + CALF_LENGTH - 0.1) :=
    not_le.mpr (by rw [hT, hC]; linarith)
  have hb2 : ¬ (d ≤ |THIGH_LENGTH - CALF_LENGTH| + 0.1) :=
    not_le.mpr (by rw [habs2]; linarith)
  set q := (THIGH_LENGTH * THIGH_LENGTH + d * d - CALF_LENGTH * CALF_LENGTH)
    / (2 * THIGH_LENGTH * d) with hqh
  have h36d : 0 < 2 * THIGH_LENGTH * d := by
    rw [hT]
    nlinarith [hdpos]
  have hq2 : q ≤ 1 := by
    rw [hqh, div_le_one h36d, hT, hC]
    nlinarith [mul_nonneg (show (0:ℝ) ≤ d - 2.1 by linarith)
      (show (0:ℝ) ≤ 33.9 - d by linarith)]
  have hq1 : -1 ≤ q := by
    rw [hqh, le_div_iff₀ h36d, hT, hC]
    nlinarith [hdpos, sq_nonneg d]
  have hclamp : clamp11 q = q := by
    rw [clamp11, max_eq_right hq1, min_eq_right hq2]
  set φ := atan2 dy dx with hφh
  set α := Real.arccos q with hαh
  have hcosα : Real.cos α = q := by
    rw [hαh]
    exact Real.cos_arccos hq1 hq2
  have hsinα : 0 ≤ Real.sin α := by
    rw [hαh, Real.sin_arccos]
    exact Real.sqrt_nonneg _
  have h1q : 0 ≤ 1 - q ^ 2 := by nlinarith [hq1, hq2]
  have hsin2 : Real.sin α ^ 2 = 1 - q ^ 2 := by
    rw [hαh, Real.sin_arccos]
    exact Real.sq_sqrt h1q
  have hs2q : side ^ 2 = 1 := by
    rcases hside with h | h <;> rw [h] <;> norm_num
  have hz : (⟨dx, dy⟩ : ℂ) ≠ 0 := by
    intro h
    have h1 : dx = 0 := congrArg Complex.re h
    have h2 : dy = 0 := congrArg Complex.im h
    rw [h1, h2, hypot_zero] at hdd
    linarith
  have habsz : Complex.abs ⟨dx, dy⟩ = d := by
    rw [Complex.abs_apply, Complex.normSq_mk, hdd]
    rfl
  have hcosφ : Real.cos φ = dx / d := by
    rw [hφh]
    simp only [atan2]
    rw [Complex.cos_arg hz, habsz]
  have hsinφ : Real.sin φ = dy / d := by
    rw [hφh]
    simp only [atan2]
    rw [Complex.sin_arg, habsz]
  have hdx2 : dx = d * Real.cos φ := by
    rw [hcosφ]
    field_simp
  have hdy2 : dy = d * Real.sin φ := by
    rw [hsinφ]
    field_simp
  have hpyth := Real.sin_sq_add_cos_sq φ
  have hqmul : q * (2 * THIGH_LENGTH * d)
      = THIGH_LENGTH * THIGH_LENGTH + d * d - CALF_LENGTH * CALF_LENGTH := by
    rw [hqh]
    field_simp
  have hcos_as : Real.cos (α * side) = q := by
    rcases hside with h | h
    · rw [h, mul_one]
      exact hcosα
    · rw [h, mul_neg_one, Real.cos_neg]
      exact hcosα
  have hsin_as : Real.sin (α * side) = side * Real.sin α := by
    rcases hside with h | h
    · rw [h, mul_one, one_mul]
    · rw [h, mul_neg_one, Real.sin_neg]
      ring
  have hTpos : (0 : ℝ) ≤ THIGH_LENGTH := by
    rw [hT]
    norm_num
  have hCpos : (0 : ℝ) ≤ CALF_LENGTH := by
    rw [hC]
    norm_num
  have hsolveEq : solveStanceLeg ⟨ax, ay⟩ ⟨fx, fy⟩ side
      = ⟨ax + THIGH_LENGTH * Real.cos (φ + α * side),
          ay + THIGH_LENGTH * Real.sin (φ + α * side)⟩ := by
    simp only [solveStanceLeg]
    rw [← hdxh, ← hdyh, ← hdd, if_neg hb1, if_neg hb2, ← hqh, hclamp, ← hφh, ← hαh]
  rw [hsolveEq]
  dsimp only
  refine ⟨?_, ?_, ?_⟩
  · have e1 : ax + THIGH_LENGTH * Real.cos (φ + α * side) - ax
        = THIGH_LENGTH * Real.cos (φ + α * side) := by ring
    have e2 : ay + THIGH_LENGTH * Real.sin (φ + α * side) - ay
        = THIGH_LENGTH * Real.sin (φ + α * side) := by ring
    rw [e1, e2]
    exact hypot_cos_sin THIGH_LENGTH _ hTpos
  · have e1 : fx - (ax + THIGH_LENGTH * Real.cos (φ + α * side))
        = dx - THIGH_LENGTH * Real.cos (φ + α * side) := by
      rw [hdxh]
      ring
    have e2 : fy - (ay + THIGH_LENGTH * Real.sin (φ + α * side))
        = dy - THIGH_LENGTH * Real.sin (φ + α * side) := by
      rw [hdyh]
      ring
    have hsq : (dx - THIGH_LENGTH * Real.cos (φ + α * side))
          * (dx - THIGH_LENGTH * Real.cos (φ + α * side))
        + (dy - THIGH_LENGTH * Real.sin (φ + α * side))
          * (dy - THIGH_LENGTH * Real.sin (φ + α * side))
        = CALF_LENGTH * CALF_LENGTH := by
      rw [Real.cos_add, Real.sin_add, hcos_as, hsin_as, hdx2, hdy2]
      linear_combination
        (d ^ 2 + THIGH_LENGTH ^ 2 * q ^ 2 + THIGH_LENGTH ^ 2 * side ^ 2 * Real.sin α ^ 2
          - 2 * d * THIGH_LENGTH * q) * hpyth
        + (THIGH_LENGTH ^ 2 * side ^ 2) * hsin2
        + (THIGH_LENGTH ^ 2 * (1 - q ^ 2)) * hs2q
        - hqmul
    simp only [hypot]
    rw [e1, e2, hsq, show CALF_LENGTH * CALF_LENGTH = CALF_LENGTH ^ 2 by ring,
      Real.sqrt_sq hCpos]
  · have e3 : ay + THIGH_LENGTH * Real.sin (φ + α * side) - ay
        = THIGH_LENGTH * Real.sin (φ + α * side) := by ring
    have e4 : ax + THIGH_LENGTH * Real.cos (φ + α * side) - ax
        = THIGH_LENGTH * Real.cos (φ + α * side) := by ring
    rw [e3, e4]
    have hcross : side * (dx * (THIGH_LENGTH * Real.sin (φ + α * side))
          - dy * (THIGH_LENGTH * Real.cos (φ + α * side)))
        = THIGH_LENGTH * d * Real.sin α := by
      rw [Real.cos_add, Real.sin_add, hcos_as, hsin_as, hdx2, hdy2]
      linear_combination (THIGH_LENGTH * d * Real.sin α * side ^ 2) * hpyth
        + (THIGH_LENGTH * d * Real.sin α) * hs2q
    rw [hcross]
    exact mul_nonneg (mul_nonneg hTpos hdpos.le) hsinα

/-- Witness for the amended C6 theorem: attach (0,0), planted foot (10,0),
    side 1 — the distance 10 lies in the interior branch and the IK solve is
    exact. -/
theorem ik_interior_exact_witness :
    pdist ⟨0, 0⟩ (solveStanceLeg ⟨0, 0⟩ ⟨10, 0⟩ 1) = THIGH_LENGTH
    ∧ pdist (solveStanceLeg ⟨0, 0⟩ ⟨10, 0⟩ 1) ⟨10, 0⟩ = CALF_LENGTH
    ∧ 0 ≤ (1 : ℝ) *
        (((10 : ℝ) - 0) * ((solveStanceLeg ⟨0, 0⟩ ⟨10, 0⟩ 1).y - 0)
          - ((0 : ℝ) - 0) * ((solveStanceLeg ⟨0, 0⟩ ⟨10, 0⟩ 1).x - 0)) :=
  ik_interior_exact ⟨0, 0⟩ ⟨10, 0⟩ 1 (Or.inl rfl)
    (by
      simp only [pdist]
      norm_num [hypot_zero_right_of_nonneg, THIGH_LENGTH, CALF_LENGTH])
    (by
      simp only [pdist]
      norm_num [hypot_zero_right_of_nonneg, THIGH_LENGTH, CALF_LENGTH])

/-! ### C10: the two legs of each pair step in unison -/

/-- Pair synchronization: the legs at indices 2j and 2j+1 share attach index,
    cycle phase, and power-stroke state. -/
def PairSync (legs : List LegState) : Prop :=
  ∀ (j : ℕ) (l r : LegState), legs[2 * j]? = some l → legs[2 * j + 1]? = some r →
    l.segmentAttachIndex = r.segmentAttachIndex ∧ l.cyclePhase = r.cyclePhase ∧
      l.isPowerStroke = r.isPowerStroke

theorem updateLeg_pair (segs : List Segment) (g speed : ℝ) (l r : LegState)
    (ha : l.segmentAttachIndex = r.segmentAttachIndex)
    (hp : l.cyclePhase = r.cyclePhase)
    (hs : l.isPowerStroke = r.isPowerStroke) :
    (updateLeg segs g speed l).segmentAttachIndex
        = (updateLeg segs g speed r).segmentAttachIndex
    ∧ (updateLeg segs g speed l).cyclePhase = (updateLeg segs g speed r).cyclePhase
    ∧ (updateLeg segs g speed l).isPowerStroke = (updateLeg segs g speed r).isPowerStroke := by
  unfold updateLeg
  rw [← ha, ← hs]
  rcases hov : segs[l.segmentAttachIndex]? with _ | parent
  · simp only [hov]
    exact ⟨ha, hp, hs⟩
  · simp only [hov]
    split_ifs <;> exact ⟨rfl, rfl, rfl⟩

theorem pairSync_map (segs : List Segment) (g speed : ℝ) (legs : List LegState)
    (h : PairSync legs) : PairSync (legs.map (updateLeg segs g speed)) := by
  intro j l r hl hr
  rw [List.getElem?_map] at hl hr
  cases hl0 : legs[2 * j]? with
  | none =>
    rw [hl0] at hl
    simp at hl
  | some l0 =>
    cases hr0 : legs[2 * j + 1]? with
    | none =>
      rw [hr0] at hr
      simp at hr
    | some r0 =>
      rw [hl0] at hl
      rw [hr0] at hr
      simp only [Option.map_some', Option.some.injEq] at hl hr
      subst hl
      subst hr
      obtain ⟨ha, hp, hs⟩ := h j l0 r0 hl0 hr0
      exact updateLeg_pair segs g speed l0 r0 ha hp hs

theorem pairSync_tick (s : SimState) (t : Point) (h : PairSync s.legStates) :
    PairSync (mainLoopTick s t).legStates := by
  cases hs : s.segments with
  | nil => simpa [mainLoopTick, hs] using h
  | cons hd rest =>
    simp only [mainLoopTick, hs]
    exact pairSync_map _ _ _ _ h

theorem pairSync_foldl (ds : List Point) :
    ∀ s : SimState, PairSync s.legStates →
      PairSync (List.foldl mainLoopTick s ds).legStates := by
  induction ds with
  | nil =>
    intro s h
    simpa using h
  | cons t ts ih =>
    intro s h
    rw [List.foldl_cons]
    exact ih _ (pairSync_tick s t h)

theorem buildLegs_pairSync : ∀ (fuel i : ℕ), PairSync (buildLegs fuel i) := by
  intro fuel
  induction fuel with
  | zero =>
    intro i j l r hl hr
    simp [buildLegs] at hl
  | succ n ih =>
    intro i j l r hl hr
    simp only [buildLegs] at hl hr
    by_cases hb : SEGMENT_COUNT ≤ LEG_START_SEGMENT_INDEX + i * LEG_SEGMENT_GAP
    · rw [if_pos hb] at hl
      simp at hl
    · rw [if_neg hb] at hl hr
      cases j with
      | zero =>
        rw [show 2 * 0 = 0 from rfl, List.getElem?_cons_zero] at hl
        rw [show 2 * 0 + 1 = 0 + 1 from rfl, List.getElem?_cons_succ,
          List.getElem?_cons_zero] at hr
        injection hl with hl
        injection hr with hr
        subst hl
        subst hr
        exact ⟨rfl, rfl, rfl⟩
      | succ m =>
        rw [show 2 * (m + 1) = (2 * m + 1) + 1 by ring, List.getElem?_cons_succ,
          List.getElem?_cons_succ] at hl
        rw [show 2 * (m + 1) + 1 = ((2 * m + 1) + 1) + 1 by ring,
          List.getElem?_cons_succ, List.getElem?_cons_succ] at hr
        exact ih (i + 1) m l r hl hr

/-- C10: the two legs of every pair are created with the same attach segment
    index, and since a leg's cycle phase and power-stroke state depend only on
    the gait clock and its attach index (never on its side), after any
    sequence of ticks from the initial leg list the legs at indices 2j and
    2j+1 still share the attach index, the cycle phase, and the STANCE/SWING
    state: opposite legs of a pair step in unison. -/
theorem leg_pairs_in_sync (s : SimState) (hinit : s.legStates = initLegStates)
    (ds : List Point) (j : ℕ) (l r : LegState)
    (hl : (List.foldl mainLoopTick s ds).legStates[2 * j]? = some l)
    (hr : (List.foldl mainLoopTick s ds).legStates[2 * j + 1]? = some r) :
    l.segmentAttachIndex = r.segmentAttachIndex ∧ l.cyclePhase = r.cyclePhase ∧
      l.isPowerStroke = r.isPowerStroke := by
  have h0 : PairSync s.legStates := by
    rw [hinit]
    exact buildLegs_pairSync LEG_PAIRS 0
  exact pairSync_foldl ds s h0 j l r hl hr

/-- Witness for C10: the first pair of the initial leg list (indices 0 and 1,
    both attached at segment 8) agrees on attach index, phase and state. -/
theorem leg_pairs_in_sync_witness :
    (⟨0, 0, 1, 0, false, none, 0, 8⟩ : LegState).segmentAttachIndex
        = (⟨1, 0, -1, 0, false, none, 0, 8⟩ : LegState).segmentAttachIndex
    ∧ (⟨0, 0, 1, 0, false, none, 0, 8⟩ : LegState).cyclePhase
        = (⟨1, 0, -1, 0, false, none, 0, 8⟩ : LegState).cyclePhase
    ∧ (⟨0, 0, 1, 0, false, none, 0, 8⟩ : LegState).isPowerStroke
        = (⟨1, 0, -1, 0, false, none, 0, 8⟩ : LegState).isPowerStroke :=
  leg_pairs_in_sync
    { segments := [], headSpeed := 0, undulationTime := 0,
      currentUndulationMagnitudeFactor := 0, globalLegCycleTime := 0,
      legStates := initLegStates }
    rfl [] 0 _ _ (by rfl) (by rfl)

end Centipede
